import Mathlib

/-!
Verification of the core ranking pipeline of `language_streamlit.py`
(LanguageLearner).

The pipeline fetches a frequency-ordered word list, translates each word
through a bilingual lexicon, scores each (word, translation) pair by a
normalized Levenshtein similarity, sorts descending and truncates, and
finally fetches display meanings.

Modelling conventions:
* strings are `List Char`; Python dicts are association lists with
  Python's insertion/update semantics (`dictInsert` / `dictLookup`);
* network and library calls are passed in as explicit parameters
  (the HTTP response body, the lexicon lookup, the translation service);
* a Python exception is `Except.error PyExn.exn`;
* similarity scores are rationals (`ℚ`) instead of IEEE doubles; all the
  scores handled here are small rationals whose values and relative order
  the doubles represent faithfully.
-/

namespace LanguageLearner

/-- Words and text are modelled as lists of characters. -/
abbrev Word := List Char

/-- A Python exception, collapsed to a single constructor: the program never
inspects the exception value, it only catches or propagates it. -/
inductive PyExn where
  | exn : PyExn
deriving DecidableEq

deriving instance DecidableEq for Except

/-- Python dict update `d[k] = v`: if the key is present its value is replaced
in place (keeping the key's original position), otherwise the pair is appended,
matching Python's insertion-ordered dict semantics. -/
def dictInsert {β : Type} (k : Word) (v : β) : List (Word × β) → List (Word × β)
  | [] => [(k, v)]
  | e :: rest => if e.1 = k then (k, v) :: rest else e :: dictInsert k v rest

/-- Python dict lookup `d.get(k)`: the value at the first (in a real dict,
unique) occurrence of the key. -/
def dictLookup {β : Type} (k : Word) : List (Word × β) → Option β
  | [] => none
  | e :: rest => if e.1 = k then some e.2 else dictLookup k rest

/-- The keys of a modelled dict, in insertion order. -/
def dictKeys {β : Type} (d : List (Word × β)) : List Word := d.map Prod.fst

/-- Python `str.lower` modelled per character.  The modelled cased alphabet
covers the ASCII capitals, the accented Latin capitals below, and the Russian
capitals; each maps to its lower-case pair.  Caseless characters — digits,
punctuation, and symbols such as 'ℂ' (U+2102, category Lu but with no simple
lowercase mapping), '№' and '™' — are returned unchanged, exactly as Python
leaves them.  Characters outside the modelled alphabet are also returned
unchanged; that is the model's boundary. -/
def pyLowerChar : Char → Char
  | 'A' => 'a' | 'B' => 'b' | 'C' => 'c' | 'D' => 'd' | 'E' => 'e' | 'F' => 'f'
  | 'G' => 'g' | 'H' => 'h' | 'I' => 'i' | 'J' => 'j' | 'K' => 'k' | 'L' => 'l'
  | 'M' => 'm' | 'N' => 'n' | 'O' => 'o' | 'P' => 'p' | 'Q' => 'q' | 'R' => 'r'
  | 'S' => 's' | 'T' => 't' | 'U' => 'u' | 'V' => 'v' | 'W' => 'w' | 'X' => 'x'
  | 'Y' => 'y' | 'Z' => 'z'
  | 'É' => 'é' | 'È' => 'è' | 'À' => 'à' | 'Ä' => 'ä' | 'Ö' => 'ö' | 'Ü' => 'ü'
  | 'Ç' => 'ç' | 'Ñ' => 'ñ'
  | 'А' => 'а' | 'Б' => 'б' | 'В' => 'в' | 'Г' => 'г' | 'Д' => 'д' | 'Е' => 'е'
  | 'Ё' => 'ё' | 'Ж' => 'ж' | 'З' => 'з' | 'И' => 'и' | 'Й' => 'й' | 'К' => 'к'
  | 'Л' => 'л' | 'М' => 'м' | 'Н' => 'н' | 'О' => 'о' | 'П' => 'п' | 'Р' => 'р'
  | 'С' => 'с' | 'Т' => 'т' | 'У' => 'у' | 'Ф' => 'ф' | 'Х' => 'х' | 'Ц' => 'ц'
  | 'Ч' => 'ч' | 'Ш' => 'ш' | 'Щ' => 'щ' | 'Ъ' => 'ъ' | 'Ы' => 'ы' | 'Ь' => 'ь'
  | 'Э' => 'э' | 'Ю' => 'ю' | 'Я' => 'я'
  | c => c

/-- `unidecode.unidecode` modelled per character: printable ASCII is kept; the
accented Latin letters and the Russian letters below are transliterated to
their plain-ASCII approximations ('ß' becomes "ss", 'я' becomes "ia" in
unidecode's romanization, "Россия" → "Rossiia"); caseless symbols whose
transliterations contain capital letters are modelled by 'ℂ' → "C",
'№' → "No." and '™' → "(TM)".  Any character outside the modelled alphabet is
dropped — a modelling boundary (real unidecode maps many more code points);
no theorem below relies on that default beyond the characters it is
instantiated at, and the string-level commutation theorem carries an explicit
per-character hypothesis. -/
def unidecodeChar : Char → List Char
  | 'é' => ['e'] | 'É' => ['E'] | 'è' => ['e'] | 'È' => ['E']
  | 'à' => ['a'] | 'À' => ['A'] | 'ä' => ['a'] | 'Ä' => ['A']
  | 'ö' => ['o'] | 'Ö' => ['O'] | 'ü' => ['u'] | 'Ü' => ['U']
  | 'ç' => ['c'] | 'Ç' => ['C'] | 'ñ' => ['n'] | 'Ñ' => ['N']
  | 'ß' => ['s', 's']
  | 'ℂ' => ['C'] | '№' => ['N', 'o', '.'] | '™' => ['(', 'T', 'M', ')']
  | 'а' => ['a'] | 'А' => ['A'] | 'б' => ['b'] | 'Б' => ['B']
  | 'в' => ['v'] | 'В' => ['V'] | 'г' => ['g'] | 'Г' => ['G']
  | 'д' => ['d'] | 'Д' => ['D'] | 'е' => ['e'] | 'Е' => ['E']
  | 'ё' => ['i', 'o'] | 'Ё' => ['I', 'o'] | 'ж' => ['z', 'h'] | 'Ж' => ['Z', 'h']
  | 'з' => ['z'] | 'З' => ['Z'] | 'и' => ['i'] | 'И' => ['I']
  | 'й' => ['i'] | 'Й' => ['I'] | 'к' => ['k'] | 'К' => ['K']
  | 'л' => ['l'] | 'Л' => ['L'] | 'м' => ['m'] | 'М' => ['M']
  | 'н' => ['n'] | 'Н' => ['N'] | 'о' => ['o'] | 'О' => ['O']
  | 'п' => ['p'] | 'П' => ['P'] | 'р' => ['r'] | 'Р' => ['R']
  | 'с' => ['s'] | 'С' => ['S'] | 'т' => ['t'] | 'Т' => ['T']
  | 'у' => ['u'] | 'У' => ['U'] | 'ф' => ['f'] | 'Ф' => ['F']
  | 'х' => ['k', 'h'] | 'Х' => ['K', 'h'] | 'ц' => ['t', 's'] | 'Ц' => ['T', 's']
  | 'ч' => ['c', 'h'] | 'Ч' => ['C', 'h'] | 'ш' => ['s', 'h'] | 'Ш' => ['S', 'h']
  | 'щ' => ['s', 'h', 'c', 'h'] | 'Щ' => ['S', 'h', 'c', 'h']
  | 'ы' => ['y'] | 'Ы' => ['Y'] | 'э' => ['e'] | 'Э' => ['E']
  | 'ю' => ['i', 'u'] | 'Ю' => ['I', 'u'] | 'я' => ['i', 'a'] | 'Я' => ['I', 'a']
  | c => if c.toNat < 128 then [c] else []

/-- `s.lower()` on a whole string. -/
def pyLower (s : Word) : Word := s.map pyLowerChar

/-- `unidecode(s)` on a whole string. -/
def unidecode : Word → Word
  | [] => []
  | c :: cs => unidecodeChar c ++ unidecode cs

theorem unidecode_append (s t : Word) :
    unidecode (s ++ t) = unidecode s ++ unidecode t := by
  induction s with
  | nil => rfl
  | cons c cs ih => simp [unidecode, ih]

/-- The two normalization orders used on line 76 of the source agree on every
string whose characters individually commute with lower-casing under
transliteration.  All ASCII characters and all cased letters of the modelled
alphabet commute; caseless characters with cased transliterations such as 'ℂ'
and '№' do not, and on them the two orders genuinely differ. -/
theorem unidecode_pyLower_of_commutes (s : Word)
    (h : ∀ c ∈ s, unidecodeChar (pyLowerChar c) = (unidecodeChar c).map pyLowerChar) :
    unidecode (pyLower s) = pyLower (unidecode s) := by
  induction s with
  | nil => rfl
  | cons c cs ih =>
      have hc := h c (List.mem_cons_self c cs)
      have ihh := ih (fun x hx => h x (List.mem_cons_of_mem c hx))
      simp only [pyLower, List.map_cons, unidecode, List.map_append] at *
      rw [hc, ihh]

/-- Fuel-indexed edit distance with insertions and deletions of cost 1 and no
substitutions (equivalently, substitutions at cost 2).  This is the distance
underlying `Levenshtein.ratio`.  The fuel only drives the recursion; every use
supplies at least `a.length + b.length`, which the recursion never exhausts. -/
def indelDistF : Nat → Word → Word → Nat
  | 0, a, b => a.length + b.length
  | _ + 1, [], b => b.length
  | _ + 1, a, [] => a.length
  | f + 1, x :: xs, y :: ys =>
      if x = y then indelDistF f xs ys
      else 1 + min (indelDistF f xs (y :: ys)) (indelDistF f (x :: xs) ys)

/-- The indel distance of two strings. -/
def indelDist (a b : Word) : Nat := indelDistF (a.length + b.length) a b

/-- `Levenshtein.ratio(a, b)`: the library computes
`(len(a) + len(b) - dist) / (len(a) + len(b))` where `dist` is the
insertion/deletion distance (substitutions weighted 2), and returns 1.0 when
both strings are empty. -/
def ratio (a b : Word) : ℚ :=
  if a.length + b.length = 0 then 1
  else ((a.length + b.length : ℚ) - indelDist a b) / (a.length + b.length)

/-- The similarity computed on line 76 of the source:
`ratio(unidecode(word.lower()), unidecode(translation).lower())`.  Note the
two normalization orders: the word is lower-cased before `unidecode`, the
translation after. -/
def scoreOf (w t : Word) : ℚ := ratio (unidecode (pyLower w)) (pyLower (unidecode t))

/-- `learn2native(word)[0]` under try/except: `none` when the lookup raised
(word not in the lexicon) and also when the candidate list is empty (the `[0]`
raises IndexError, equally caught). -/
def firstCandidate (cands : Option (List Word)) : Option Word :=
  cands.bind List.head?

/-- Lines 62–71 of the source.  `Word2word(lang_to_learn, native_lang)` is
evaluated before the loop and outside any try/except, so a failing lexicon
construction (unavailable language pair) escapes as an exception; it is
modelled as the `Except.error` case of `mkLexicon`.  Each per-word lookup is
inside try/except and a failure records `None` for that word. -/
def get_translations (mkLexicon : Except PyExn (Word → Option (List Word)))
    (top_words : List Word) : Except PyExn (List (Word × Option Word)) :=
  match mkLexicon with
  | .error e => .error e
  | .ok lex => .ok (top_words.foldl (fun d w => dictInsert w (firstCandidate (lex w)) d) [])

/-- Line 95 of the source: `{word: trans for word, trans in translations.items()
if trans is not None}`. -/
def valid_translations (translations : List (Word × Option Word)) : List (Word × Word) :=
  translations.filterMap (fun e => e.2.map (fun t => (e.1, t)))

/-- A word-to-word dict viewed again as a dict with optional values (the shape
`get_similarity_scores` expects when it is handed `valid_translations`). -/
def asOptional (d : List (Word × Word)) : List (Word × Option Word) :=
  d.map (fun e => (e.1, some e.2))

/-- One entry of the similarity-score dict comprehension: a word with a
present translation is scored, a word with an absent one is skipped. -/
def gssStep (d : List (Word × ℚ)) (e : Word × Option Word) : List (Word × ℚ) :=
  match e.2 with
  | some t => dictInsert e.1 (scoreOf e.1 t) d
  | none => d

/-- Lines 73–78 of the source: the similarity-score dict comprehension, scoring
each word with a present translation and skipping the absent ones. -/
def get_similarity_scores (translations : List (Word × Option Word)) : List (Word × ℚ) :=
  translations.foldl gssStep []

/-- The sentinel recorded on line 88 of the source when the translation
service fails for a word. -/
def noTranslationSentinel : Word := "[No translation]".data

/-- Lines 80–89 of the source: display meanings via the general translation
service; the bare `except` catches any per-word failure and records the
sentinel, and the loop continues with the remaining words. -/
def get_meanings (translate : Word → Option Word) (words : List Word) : List (Word × Word) :=
  words.foldl
    (fun d w =>
      match translate w with
      | some t => dictInsert w t d
      | none => dictInsert w noTranslationSentinel d) []

/-- Python whitespace for `str.split()` with no separator. -/
def isPySpace (c : Char) : Bool :=
  c = ' ' || c = '\t' || c = '\n' || c = '\r' || c = '\x0b' || c = '\x0c'

/-- Split a string at every character satisfying `p`; consecutive separators
produce empty fields. -/
def splitOnPred (p : Char → Bool) : List Char → List (List Char)
  | [] => [[]]
  | c :: cs =>
      if p c then [] :: splitOnPred p cs
      else
        match splitOnPred p cs with
        | [] => [[c]]
        | l :: ls => (c :: l) :: ls

/-- Python `str.splitlines` for newline-delimited text: a final newline
terminates the last line rather than opening an empty one, and the empty
string has no lines. -/
def pySplitlines (s : List Char) : List (List Char) :=
  let r := splitOnPred (fun c => c = '\n') s
  if r.getLast? = some [] then r.dropLast else r

/-- Python `str.split()` with no argument: whitespace-run-separated tokens,
never empty ones. -/
def pySplitWs (s : List Char) : List (List Char) :=
  (splitOnPred isPySpace s).filter (fun t => !t.isEmpty)

/-- Python `l[:n]` where `n` may be `None` (no truncation). -/
def pyTake (n : Option Nat) (l : List (List Char)) : List (List Char) :=
  match n with
  | none => l
  | some k => l.take k

/-- Lines 52–55 of the source, with the HTTP call abstracted to its outcome:
`response` is the body text on success and an exception when `requests.get`
raised.  `line.split()[0]` raises IndexError on a line with no token (for
example a blank line); nothing in the function catches it. -/
def get_words (response : Except PyExn Word) (buffer_count : Option Nat) :
    Except PyExn (List Word) :=
  match response with
  | .error e => .error e
  | .ok text =>
      (pyTake buffer_count (pySplitlines text)).mapM
        (fun line =>
          match pySplitWs line with
          | [] => Except.error PyExn.exn
          | t :: _ => Except.ok t)

/-- Lines 48–60 of the source: fetch the primary language's list and fall back
to the fallback language's list when the primary list is empty.  The trailing
`or []` of the source is the identity here: an empty fallback list is already
`[]`. -/
def fetch_top_words (primary fallback : Except PyExn Word) (buffer_count : Option Nat) :
    Except PyExn (List Word) :=
  match get_words primary buffer_count with
  | .error e => .error e
  | .ok ws => if ws.isEmpty then get_words fallback buffer_count else .ok ws

/-- The descending-by-score order used by `sorted(..., key=lambda x: x[1],
reverse=True)` on line 97. -/
def byScoreDesc (p q : Word × ℚ) : Prop := q.2 ≤ p.2

instance : DecidableRel byScoreDesc :=
  fun p q => inferInstanceAs (Decidable (q.2 ≤ p.2))

instance : IsTotal (Word × ℚ) byScoreDesc :=
  ⟨fun a b => le_total b.2 a.2⟩

instance : IsTrans (Word × ℚ) byScoreDesc :=
  ⟨fun _ _ _ h1 h2 => le_trans h2 h1⟩

/-- Line 97 of the source.  Python's `sorted` with `reverse=True` is a stable
descending sort; any stable sort by the same order computes the same list, so
it is modelled by stable insertion sort. -/
def sorted_matches (similarity_scores : List (Word × ℚ)) : List (Word × ℚ) :=
  List.insertionSort byScoreDesc similarity_scores

/-- Line 98 of the source: `sorted_matches[:word_count]`. -/
def top_matches (similarity_scores : List (Word × ℚ)) (word_count : Nat) : List (Word × ℚ) :=
  (sorted_matches similarity_scores).take word_count

theorem indelDistF_le (f : Nat) : ∀ (a b : Word), a.length + b.length ≤ f →
    indelDistF f a b ≤ a.length + b.length := by
  induction f with
  | zero => intro a b _; simp [indelDistF]
  | succ f ih =>
      intro a b h
      match a, b with
      | [], b => simp only [indelDistF, List.length_nil]; omega
      | x :: xs, [] => simp only [indelDistF, List.length_nil]; omega
      | x :: xs, y :: ys =>
          simp only [indelDistF, List.length_cons]
          split
          · have hx := ih xs ys (by simp only [List.length_cons] at h; omega)
            omega
          · have h1 := ih xs (y :: ys) (by simp only [List.length_cons] at h ⊢; omega)
            have h2 := ih (x :: xs) ys (by simp only [List.length_cons] at h ⊢; omega)
            simp only [List.length_cons] at h1 h2
            omega

theorem indelDistF_eq_zero (f : Nat) : ∀ (a b : Word), a.length + b.length ≤ f →
    (indelDistF f a b = 0 ↔ a = b) := by
  induction f with
  | zero =>
      intro a b h
      have ha : a = [] := List.eq_nil_of_length_eq_zero (by omega)
      have hb : b = [] := List.eq_nil_of_length_eq_zero (by omega)
      subst ha; subst hb
      simp [indelDistF]
  | succ f ih =>
      intro a b h
      match a, b with
      | [], [] => simp [indelDistF]
      | [], y :: ys => simp [indelDistF]
      | x :: xs, [] => simp [indelDistF]
      | x :: xs, y :: ys =>
          simp only [indelDistF]
          split
          · next hxy =>
              subst hxy
              rw [ih xs ys (by simp only [List.length_cons] at h; omega)]
              simp
          · next hxy =>
              constructor
              · intro hc; omega
              · intro hc
                injection hc with h1 h2
                exact absurd h1 hxy

theorem indelDist_le (a b : Word) : indelDist a b ≤ a.length + b.length :=
  indelDistF_le _ a b (Nat.le_refl _)

theorem indelDist_eq_zero_iff (a b : Word) : indelDist a b = 0 ↔ a = b :=
  indelDistF_eq_zero _ a b (Nat.le_refl _)

theorem ratio_nonneg (a b : Word) : 0 ≤ ratio a b := by
  unfold ratio
  split
  · exact zero_le_one
  · next h =>
      have hd : (indelDist a b : ℚ) ≤ (a.length : ℚ) + (b.length : ℚ) := by
        exact_mod_cast indelDist_le a b
      have hp : (0 : ℚ) < (a.length : ℚ) + (b.length : ℚ) := by
        have := Nat.pos_of_ne_zero h
        exact_mod_cast this
      exact div_nonneg (by linarith) (le_of_lt hp)

theorem ratio_le_one (a b : Word) : ratio a b ≤ 1 := by
  unfold ratio
  split
  · exact le_refl 1
  · next h =>
      have hp : (0 : ℚ) < (a.length : ℚ) + (b.length : ℚ) := by
        have := Nat.pos_of_ne_zero h
        exact_mod_cast this
      rw [div_le_one hp]
      have hd : (0 : ℚ) ≤ (indelDist a b : ℚ) := Nat.cast_nonneg _
      linarith

theorem ratio_eq_one_iff (a b : Word) : ratio a b = 1 ↔ a = b := by
  unfold ratio
  split
  · next h =>
      have ha : a = [] := List.eq_nil_of_length_eq_zero (by omega)
      have hb : b = [] := List.eq_nil_of_length_eq_zero (by omega)
      subst ha; subst hb
      simp
  · next h =>
      have hp : (0 : ℚ) < (a.length : ℚ) + (b.length : ℚ) := by
        have := Nat.pos_of_ne_zero h
        exact_mod_cast this
      rw [div_eq_one_iff_eq (ne_of_gt hp)]
      constructor
      · intro he
        have hz : (indelDist a b : ℚ) = 0 := by linarith
        have hz' : indelDist a b = 0 := by exact_mod_cast hz
        exact (indelDist_eq_zero_iff a b).mp hz'
      · intro he
        have hz : indelDist a b = 0 := (indelDist_eq_zero_iff a b).mpr he
        rw [hz]
        simp

theorem dictLookup_dictInsert_self {β : Type} (k : Word) (v : β) (d : List (Word × β)) :
    dictLookup k (dictInsert k v d) = some v := by
  induction d with
  | nil => simp [dictInsert, dictLookup]
  | cons e rest ih =>
      by_cases h : e.1 = k
      · simp [dictInsert, h, dictLookup]
      · simp [dictInsert, h, dictLookup, ih]

theorem dictLookup_dictInsert_ne {β : Type} {w k : Word} (h : w ≠ k) (v : β)
    (d : List (Word × β)) : dictLookup w (dictInsert k v d) = dictLookup w d := by
  have hkw : ¬ (k = w) := fun hc => h hc.symm
  induction d with
  | nil => simp [dictInsert, dictLookup, hkw]
  | cons e rest ih =>
      by_cases he : e.1 = k
      · simp [dictInsert, dictLookup, he, hkw, h]
      · by_cases hw : e.1 = w <;> simp [dictInsert, dictLookup, he, hw, h, hkw, ih]

theorem dictKeys_dictInsert_mem {β : Type} {k : Word} (v : β) {d : List (Word × β)}
    (h : k ∈ dictKeys d) : dictKeys (dictInsert k v d) = dictKeys d := by
  induction d with
  | nil => simp [dictKeys] at h
  | cons e rest ih =>
      simp only [dictKeys, List.map_cons, List.mem_cons] at h ih ⊢
      by_cases he : e.1 = k
      · simp [dictInsert, he]
      · have hm : k ∈ List.map Prod.fst rest := by
          rcases h with h | h
          · exact absurd h.symm he
          · exact h
        simp [dictInsert, he, ih hm]

theorem dictKeys_dictInsert_not_mem {β : Type} {k : Word} (v : β) {d : List (Word × β)}
    (h : k ∉ dictKeys d) : dictKeys (dictInsert k v d) = dictKeys d ++ [k] := by
  induction d with
  | nil => simp [dictInsert, dictKeys]
  | cons e rest ih =>
      simp only [dictKeys, List.map_cons, List.mem_cons] at h ih ⊢
      push_neg at h
      have he : ¬ (e.1 = k) := fun hc => h.1 hc.symm
      simp [dictInsert, he, ih h.2]

theorem dictLookup_eq_none_iff {β : Type} (w : Word) (d : List (Word × β)) :
    dictLookup w d = none ↔ w ∉ dictKeys d := by
  induction d with
  | nil => simp [dictLookup, dictKeys]
  | cons e rest ih =>
      simp only [dictKeys, List.map_cons, List.mem_cons] at ih ⊢
      rw [show dictLookup w (e :: rest) =
            (if e.1 = w then some e.2 else dictLookup w rest) from rfl]
      by_cases h : e.1 = w
      · rw [if_pos h]
        constructor
        · intro hc
          exact absurd hc (by simp)
        · intro hc
          exact (hc (Or.inl h.symm)).elim
      · have hwe : ¬ (w = e.1) := fun hc => h hc.symm
        rw [if_neg h, ih]
        constructor
        · intro hnm hor
          rcases hor with hor | hor
          · exact hwe hor
          · exact hnm hor
        · intro hn hm
          exact hn (Or.inr hm)

theorem dictKeys_nodup_dictInsert {β : Type} (k : Word) (v : β) (d : List (Word × β))
    (h : (dictKeys d).Nodup) : (dictKeys (dictInsert k v d)).Nodup := by
  by_cases hm : k ∈ dictKeys d
  · rw [dictKeys_dictInsert_mem v hm]
    exact h
  · rw [dictKeys_dictInsert_not_mem v hm]
    refine List.Nodup.append h (List.nodup_singleton k) ?_
    intro x hx hx'
    rw [List.mem_singleton] at hx'
    subst hx'
    exact hm hx

/-- The dict produced by a Python loop `for w in ws: d[w] = F(w)` starting
from the empty dict. -/
def buildDict {β : Type} (F : Word → β) (ws : List Word) : List (Word × β) :=
  ws.foldl (fun d w => dictInsert w (F w) d) []

theorem buildDict_foldl_lookup {β : Type} (F : Word → β) (ws : List Word) :
    ∀ (d0 : List (Word × β)) (w : Word),
      dictLookup w (ws.foldl (fun d x => dictInsert x (F x) d) d0) =
        if w ∈ ws then some (F w) else dictLookup w d0 := by
  induction ws with
  | nil => intro d0 w; simp
  | cons x ws ih =>
      intro d0 w
      rw [List.foldl_cons, ih]
      by_cases hw : w ∈ ws
      · simp [hw]
      · by_cases hx : w = x
        · subst hx
          simp [hw, dictLookup_dictInsert_self]
        · simp [hw, hx, dictLookup_dictInsert_ne hx]

theorem buildDict_lookup {β : Type} (F : Word → β) (ws : List Word) (w : Word) :
    dictLookup w (buildDict F ws) = if w ∈ ws then some (F w) else none := by
  rw [buildDict, buildDict_foldl_lookup,
    show dictLookup w ([] : List (Word × β)) = none from rfl]

theorem buildDict_foldl_keys_nodup {β : Type} (F : Word → β) (ws : List Word) :
    ∀ (d0 : List (Word × β)), (dictKeys d0).Nodup →
      (dictKeys (ws.foldl (fun d x => dictInsert x (F x) d) d0)).Nodup := by
  induction ws with
  | nil => intro d0 h; simpa using h
  | cons x ws ih =>
      intro d0 h
      rw [List.foldl_cons]
      exact ih _ (dictKeys_nodup_dictInsert _ _ _ h)

theorem buildDict_keys_nodup {β : Type} (F : Word → β) (ws : List Word) :
    (dictKeys (buildDict F ws)).Nodup :=
  buildDict_foldl_keys_nodup F ws [] (by simp [dictKeys])

theorem buildDict_mem_keys {β : Type} (F : Word → β) (ws : List Word) (w : Word) :
    w ∈ dictKeys (buildDict F ws) ↔ w ∈ ws := by
  constructor
  · intro hk
    by_contra hm
    have h := buildDict_lookup F ws w
    rw [if_neg hm] at h
    exact ((dictLookup_eq_none_iff w _).mp h) hk
  · intro hm
    by_contra hk
    have hl := (dictLookup_eq_none_iff w _).mpr hk
    rw [buildDict_lookup, if_pos hm] at hl
    exact Option.noConfusion hl

theorem get_translations_ok (lex : Word → Option (List Word)) (ws : List Word) :
    get_translations (Except.ok lex) ws =
      Except.ok (buildDict (fun w => firstCandidate (lex w)) ws) := rfl

theorem get_meanings_eq (translate : Word → Option Word) (ws : List Word) :
    get_meanings translate ws =
      buildDict (fun w => (translate w).getD noTranslationSentinel) ws := by
  unfold get_meanings buildDict
  congr 1
  funext d w
  cases h : translate w <;> simp [h]

theorem gss_foldl_lookup :
    ∀ (tm : List (Word × Option Word)) (d0 : List (Word × ℚ)) (w : Word),
      (dictKeys tm).Nodup →
      (∀ x, x ∈ dictKeys tm → dictLookup x d0 = none) →
      dictLookup w (tm.foldl gssStep d0) =
        (((dictLookup w tm).bind (fun ot => ot.map (scoreOf w))).or
          (dictLookup w d0)) := by
  intro tm
  induction tm with
  | nil =>
      intro d0 w _ _
      rw [List.foldl_nil,
        show dictLookup w ([] : List (Word × Option Word)) = none from rfl]
      simp [Option.or]
  | cons e tm ih =>
      intro d0 w hn hd
      obtain ⟨k, ov⟩ := e
      simp only [dictKeys, List.map_cons, List.nodup_cons] at hn
      obtain ⟨hk_nin, hn'⟩ := hn
      have hkeys : ∀ x, x ∈ dictKeys tm → x ≠ k := by
        intro x hx hc
        subst hc
        exact hk_nin (by simpa [dictKeys] using hx)
      have hdcons : ∀ x, x ∈ dictKeys tm → dictLookup x d0 = none := by
        intro x hx
        exact hd x (List.mem_cons.mpr (Or.inr hx))
      rw [List.foldl_cons,
        show dictLookup w ((k, ov) :: tm) =
          (if k = w then some ov else dictLookup w tm) from rfl]
      cases ov with
      | some t =>
          have hd1 : ∀ x, x ∈ dictKeys tm →
              dictLookup x (dictInsert k (scoreOf k t) d0) = none := by
            intro x hx
            rw [dictLookup_dictInsert_ne (hkeys x hx)]
            exact hdcons x hx
          rw [show gssStep d0 (k, some t) = dictInsert k (scoreOf k t) d0 from rfl]
          rw [ih (dictInsert k (scoreOf k t) d0) w hn' hd1]
          by_cases hkw : k = w
          · subst hkw
            have hktm : dictLookup k tm = none :=
              (dictLookup_eq_none_iff _ _).mpr (by simpa [dictKeys] using hk_nin)
            rw [hktm, if_pos rfl, dictLookup_dictInsert_self]
            simp [Option.or]
          · have hwk : w ≠ k := fun hc => hkw hc.symm
            rw [dictLookup_dictInsert_ne hwk, if_neg hkw]
      | none =>
          rw [show gssStep d0 (k, none) = d0 from rfl]
          rw [ih d0 w hn' hdcons]
          by_cases hkw : k = w
          · subst hkw
            have hktm : dictLookup k tm = none :=
              (dictLookup_eq_none_iff _ _).mpr (by simpa [dictKeys] using hk_nin)
            have hkd0 : dictLookup k d0 = none :=
              hd k (by simp [dictKeys])
            rw [hktm, if_pos rfl, hkd0]
            simp [Option.or]
          · rw [if_neg hkw]

theorem get_similarity_scores_lookup (tm : List (Word × Option Word))
    (hn : (dictKeys tm).Nodup) (w : Word) :
    dictLookup w (get_similarity_scores tm) =
      (dictLookup w tm).bind (fun ot => ot.map (scoreOf w)) := by
  have h := gss_foldl_lookup tm [] w hn (fun x _ => rfl)
  rw [get_similarity_scores, h,
    show dictLookup w ([] : List (Word × ℚ)) = none from rfl]
  cases (dictLookup w tm).bind (fun ot => ot.map (scoreOf w)) <;> simp [Option.or]

theorem gss_foldl_keys_nodup :
    ∀ (tm : List (Word × Option Word)) (d0 : List (Word × ℚ)),
      (dictKeys d0).Nodup →
      (dictKeys (tm.foldl gssStep d0)).Nodup := by
  intro tm
  induction tm with
  | nil => intro d0 h; simpa using h
  | cons e tm ih =>
      intro d0 h
      obtain ⟨k, ov⟩ := e
      rw [List.foldl_cons]
      cases ov with
      | some t => exact ih _ (dictKeys_nodup_dictInsert _ _ _ h)
      | none => exact ih _ h

theorem get_similarity_scores_keys_nodup (tm : List (Word × Option Word)) :
    (dictKeys (get_similarity_scores tm)).Nodup :=
  gss_foldl_keys_nodup tm [] (by simp [dictKeys])

theorem sorted_matches_sorted (scores : List (Word × ℚ)) :
    List.Sorted byScoreDesc (sorted_matches scores) :=
  List.sorted_insertionSort byScoreDesc scores

theorem sorted_matches_perm (scores : List (Word × ℚ)) :
    List.Perm (sorted_matches scores) scores :=
  List.perm_insertionSort byScoreDesc scores

theorem mem_keys_top_matches (scores : List (Word × ℚ)) (n : Nat) (w : Word)
    (h : w ∈ dictKeys (top_matches scores n)) : w ∈ dictKeys scores := by
  simp only [dictKeys, top_matches] at h ⊢
  rcases List.mem_map.mp h with ⟨p, hp, rfl⟩
  exact List.mem_map_of_mem _
    ((sorted_matches_perm scores).subset ((List.take_sublist _ _).subset hp))

theorem keys_top_matches_nodup (scores : List (Word × ℚ)) (n : Nat)
    (h : (dictKeys scores).Nodup) : (dictKeys (top_matches scores n)).Nodup := by
  have hperm : List.Perm (List.map Prod.fst (sorted_matches scores))
      (List.map Prod.fst scores) := (sorted_matches_perm scores).map Prod.fst
  have hs : (List.map Prod.fst (sorted_matches scores)).Nodup :=
    hperm.nodup_iff.mpr h
  simp only [dictKeys, top_matches]
  rw [List.map_take]
  exact hs.sublist (List.take_sublist _ _)

theorem valid_translations_keys_subset (tm : List (Word × Option Word)) :
    dictKeys (valid_translations tm) ⊆ dictKeys tm := by
  induction tm with
  | nil => simp [valid_translations, dictKeys]
  | cons e tm ih =>
      obtain ⟨k, ov⟩ := e
      cases ov with
      | some t =>
          simp only [valid_translations, List.filterMap_cons, dictKeys,
            List.map_cons] at ih ⊢
          intro x hx
          rcases List.mem_cons.mp hx with hx | hx
          · exact List.mem_cons.mpr (Or.inl hx)
          · exact List.mem_cons.mpr (Or.inr (ih hx))
      | none =>
          simp only [valid_translations, List.filterMap_cons, dictKeys,
            List.map_cons] at ih ⊢
          intro x hx
          exact List.mem_cons.mpr (Or.inr (ih hx))

theorem valid_translations_not_mem (tm : List (Word × Option Word)) (w : Word)
    (hn : (dictKeys tm).Nodup) (hw : dictLookup w tm = some none) :
    w ∉ dictKeys (valid_translations tm) := by
  induction tm with
  | nil => simp [dictLookup] at hw
  | cons e tm ih =>
      obtain ⟨k, ov⟩ := e
      simp only [dictKeys, List.map_cons, List.nodup_cons] at hn
      obtain ⟨hk_nin, hn'⟩ := hn
      rw [show dictLookup w ((k, ov) :: tm) =
        (if k = w then some ov else dictLookup w tm) from rfl] at hw
      by_cases hkw : k = w
      · rw [if_pos hkw] at hw
        have hov : ov = none := by injection hw
        subst hov
        subst hkw
        simp only [valid_translations, List.filterMap_cons]
        intro hc
        exact hk_nin (by simpa [dictKeys] using valid_translations_keys_subset tm hc)
      · rw [if_neg hkw] at hw
        have hni := ih hn' hw
        cases ov with
        | some t =>
            simp only [valid_translations, List.filterMap_cons, dictKeys,
              List.map_cons] at hni ⊢
            intro hc
            rcases List.mem_cons.mp hc with hc | hc
            · exact hkw hc.symm
            · exact hni hc
        | none =>
            simpa [valid_translations, List.filterMap_cons] using hni

/-- Modelled from the spec: the classic Levenshtein edit distance named by the
claimed formula — unit-cost insertions, deletions and substitutions —
fuel-indexed like `indelDistF`. -/
def specEditDistF : Nat → Word → Word → Nat
  | 0, a, b => a.length + b.length
  | _ + 1, [], b => b.length
  | _ + 1, a, [] => a.length
  | f + 1, x :: xs, y :: ys =>
      if x = y then specEditDistF f xs ys
      else 1 + min (specEditDistF f xs ys)
              (min (specEditDistF f xs (y :: ys)) (specEditDistF f (x :: xs) ys))

/-- Modelled from the spec: the Levenshtein edit distance of two strings. -/
def specEditDistance (a b : Word) : Nat := specEditDistF (a.length + b.length) a b

/-- Modelled from the spec: the claimed Levenshtein-ratio formula
`(len(a) + len(b) - 2*edit_distance(a, b)) / (len(a) + len(b))`. -/
def specRatioFormula (a b : Word) : ℚ :=
  ((a.length + b.length : ℚ) - 2 * specEditDistance a b) / (a.length + b.length)

/-- Modelled from the spec, amended: the ratio formula with the edit distance
taken as the insertion/deletion distance (substitutions at cost 2). -/
def specRatioIndel (a b : Word) : ℚ :=
  ((a.length + b.length : ℚ) - indelDist a b) / (a.length + b.length)

/-- The spec's three-word scenario with a failed lookup for "auto". -/
def exTm3 : List (Word × Option Word) :=
  [("haus".data, some "house".data), ("auto".data, none),
   ("buch".data, some "book".data)]

/-- The spec's three-word scenario with all three lookups present. -/
def exTmOk : List (Word × Option Word) :=
  [("haus".data, some "house".data), ("auto".data, some "car".data),
   ("buch".data, some "book".data)]

/-- A concrete bilingual lookup for witnesses. -/
def exLex : Word → Option (List Word) := fun w =>
  if w = "haus".data then some ["house".data]
  else if w = "auto".data then some ["car".data]
  else if w = "buch".data then some ["book".data]
  else none

/-- A concrete bilingual lookup failing on "auto". -/
def exLexFail : Word → Option (List Word) := fun w =>
  if w = "haus".data then some ["house".data]
  else if w = "buch".data then some ["book".data]
  else none

/-- A concrete meaning service failing on everything but "haus". -/
def exSvcFail : Word → Option Word := fun w =>
  if w = "haus".data then some "house".data else none

/-- C1, counterexample: on the word "haus" with translation "house" (already
normalized), the similarity computed by the code is 2/3, while the claimed
formula with the Levenshtein edit distance (here 2: one substitution, one
insertion) yields 5/9. -/
theorem claim_C1_counterexample :
    scoreOf "haus".data "house".data ≠
      specRatioFormula (unidecode (pyLower "haus".data))
        (pyLower (unidecode "house".data)) ∧
    scoreOf "haus".data "house".data = 2/3 ∧
    specRatioFormula (unidecode (pyLower "haus".data))
      (pyLower (unidecode "house".data)) = 5/9 ∧
    specEditDistance "haus".data "house".data = 2 := by
  refine ⟨?_, ?_, ?_, ?_⟩ <;> with_unfolding_all decide

/-- C1, amended: for every word with a present translation (in a dict with
unique keys, as Python dicts have), the similarity score equals
`(len(a)+len(b) - dist(a,b)) / (len(a)+len(b))` applied to the two normalized
strings, where `dist` is the edit distance with insertions and deletions of
cost 1 and substitutions of cost 2 (the indel distance), provided the
normalized strings are not both empty. -/
theorem claim_C1_amended (translations : List (Word × Option Word)) (w t : Word)
    (hn : (dictKeys translations).Nodup)
    (hw : dictLookup w translations = some (some t))
    (hz : (unidecode (pyLower w)).length + (pyLower (unidecode t)).length ≠ 0) :
    dictLookup w (get_similarity_scores translations) =
      some (specRatioIndel (unidecode (pyLower w)) (pyLower (unidecode t))) := by
  rw [get_similarity_scores_lookup translations hn w, hw]
  show some (scoreOf w t) = _
  rw [scoreOf, ratio, if_neg hz]
  rfl

/-- C1, witness for the amended theorem at the "haus"/"house" pair. -/
theorem claim_C1_amended_witness :
    (dictKeys [("haus".data, some "house".data)]).Nodup ∧
    dictLookup "haus".data
        (get_similarity_scores [("haus".data, some "house".data)]) =
      some (specRatioIndel (unidecode (pyLower "haus".data))
        (pyLower (unidecode "house".data))) :=
  ⟨by decide,
   claim_C1_amended [("haus".data, some "house".data)] "haus".data "house".data
     (by decide) (by decide) (by decide)⟩

/-- C2: for every similarity-score mapping and requested count, the ranked
output is sorted non-increasing by score and its length is the minimum of the
requested count and the number of scored pairs. -/
theorem claim_C2 (similarity_scores : List (Word × ℚ)) (word_count : Nat) :
    List.Sorted byScoreDesc (top_matches similarity_scores word_count) ∧
    (top_matches similarity_scores word_count).length =
      min word_count similarity_scores.length := by
  constructor
  · exact List.Pairwise.sublist (List.take_sublist _ _)
      (sorted_matches_sorted similarity_scores)
  · simp [top_matches, sorted_matches, List.length_take,
      List.length_insertionSort]

/-- C3, counterexample: the word "№" translated as itself.  Any single
normalization rule sends the two equal strings to the same normalized form,
so the claim's right-hand side holds, yet the code compares
`unidecode("№".lower())` = "No." against `unidecode("№").lower()` = "no." and
scores 2/3, not 1.0. -/
theorem claim_C3_counterexample :
    dictLookup "№".data (get_similarity_scores [("№".data, some "№".data)]) =
      some (scoreOf "№".data "№".data) ∧
    unidecode (pyLower "№".data) = unidecode (pyLower "№".data) ∧
    scoreOf "№".data "№".data = 2/3 ∧
    scoreOf "№".data "№".data ≠ 1 := by
  have h1 : unidecode (pyLower "№".data) = "No.".data := by decide
  have h2 : pyLower (unidecode "№".data) = "no.".data := by decide
  refine ⟨?_, rfl, ?_, ?_⟩
  · rw [get_similarity_scores_lookup [("№".data, some "№".data)] (by decide)
      "№".data]
    rfl
  · rw [scoreOf, h1, h2]
    with_unfolding_all decide
  · rw [scoreOf, h1, h2]
    with_unfolding_all decide

/-- C3, amended: for every word with a present translation (in a dict with
unique keys), its score is in [0, 1], and it equals 1 exactly when the two
normalized forms the code actually compares coincide —
`unidecode(word.lower())` and `unidecode(translation).lower()`.  When every
character of the translation commutes with lower-casing under transliteration
(all ASCII and all cased letters do), that condition is equivalent to the
word and the translation normalizing to the same string under the single rule
of diacritic removal plus lower-casing. -/
theorem claim_C3_amended (translations : List (Word × Option Word)) (w t : Word)
    (hn : (dictKeys translations).Nodup)
    (hw : dictLookup w translations = some (some t)) :
    dictLookup w (get_similarity_scores translations) = some (scoreOf w t) ∧
    0 ≤ scoreOf w t ∧ scoreOf w t ≤ 1 ∧
    (scoreOf w t = 1 ↔ unidecode (pyLower w) = pyLower (unidecode t)) ∧
    ((∀ c ∈ t, unidecodeChar (pyLowerChar c) = (unidecodeChar c).map pyLowerChar) →
      (scoreOf w t = 1 ↔ unidecode (pyLower w) = unidecode (pyLower t))) := by
  refine ⟨?_, ratio_nonneg _ _, ratio_le_one _ _, ?_, ?_⟩
  · rw [get_similarity_scores_lookup translations hn w, hw]
    rfl
  · rw [scoreOf, ratio_eq_one_iff]
  · intro hc
    rw [scoreOf, ratio_eq_one_iff, ← unidecode_pyLower_of_commutes t hc]

/-- C3, witness at the "haus"/"house" pair, whose characters all commute. -/
theorem claim_C3_amended_witness :
    (dictKeys [("haus".data, some "house".data)]).Nodup ∧
    (0 ≤ scoreOf "haus".data "house".data ∧
      scoreOf "haus".data "house".data ≤ 1) ∧
    (scoreOf "haus".data "house".data = 1 ↔
      unidecode (pyLower "haus".data) = unidecode (pyLower "house".data)) :=
  ⟨by decide,
   ⟨(claim_C3_amended [("haus".data, some "house".data)] "haus".data
       "house".data (by decide) (by decide)).2.1,
    (claim_C3_amended [("haus".data, some "house".data)] "haus".data
       "house".data (by decide) (by decide)).2.2.1⟩,
   (claim_C3_amended [("haus".data, some "house".data)] "haus".data
       "house".data (by decide) (by decide)).2.2.2.2 (by decide)⟩

/-- C4, counterexample: 'ℂ' is caseless ('ℂ'.lower() is 'ℂ') while its
transliteration "C" is cased, so lower-casing then removing diacritics gives
"C" but removing diacritics then lower-casing gives "c"; '№' likewise yields
"No." versus "no.". -/
theorem claim_C4_counterexample :
    unidecode (pyLower "ℂ".data) ≠ pyLower (unidecode "ℂ".data) ∧
    unidecode (pyLower "ℂ".data) = "C".data ∧
    pyLower (unidecode "ℂ".data) = "c".data ∧
    unidecode (pyLower "№".data) ≠ pyLower (unidecode "№".data) := by
  refine ⟨?_, ?_, ?_, ?_⟩ <;> decide

/-- C4, amended: the word's transformation (lower-case then remove
diacritics) and the translation's (remove diacritics then lower-case) agree
on every string whose characters individually commute — in particular all
ASCII and all cased letters of the modelled alphabet — but not on all
strings: caseless characters with cased transliterations, such as 'ℂ' and
'№', separate the two orders. -/
theorem claim_C4_amended (x : Word)
    (h : ∀ c ∈ x, unidecodeChar (pyLowerChar c) = (unidecodeChar c).map pyLowerChar) :
    unidecode (pyLower x) = pyLower (unidecode x) :=
  unidecode_pyLower_of_commutes x h

/-- C4, witness at a mixed Latin, German and Russian string. -/
theorem claim_C4_amended_witness :
    (∀ c ∈ "GrößeДом".data,
      unidecodeChar (pyLowerChar c) = (unidecodeChar c).map pyLowerChar) ∧
    unidecode (pyLower "GrößeДом".data) = pyLower (unidecode "GrößeДом".data) :=
  ⟨by decide, claim_C4_amended "GrößeДом".data (by decide)⟩

/-- C5, counterexample: when the bilingual lexicon is unavailable for the
language pair (`Word2word(...)` raises), `get_translations` propagates the
exception instead of recording absences — the whole three-word batch aborts. -/
theorem claim_C5_counterexample :
    get_translations (Except.error PyExn.exn)
      ["haus".data, "auto".data, "buch".data] = Except.error PyExn.exn := rfl

/-- C5, amended: once the lexicon is constructed successfully, each word is
handled independently: every word of the batch gets an entry, a failed or
empty lookup records an explicit absence (`firstCandidate` is `none`), and the
function never raises.  A lexicon-construction failure, by contrast, aborts
the whole batch. -/
theorem claim_C5_amended (lex : Word → Option (List Word)) (top_words : List Word)
    (w : Word) (hw : w ∈ top_words) :
    ∃ tm, get_translations (Except.ok lex) top_words = Except.ok tm ∧
      dictLookup w tm = some (firstCandidate (lex w)) := by
  refine ⟨buildDict (fun x => firstCandidate (lex x)) top_words,
    get_translations_ok lex top_words, ?_⟩
  rw [buildDict_lookup, if_pos hw]

/-- C5, witness: the failed word "auto" gets an explicit `none`. -/
theorem claim_C5_amended_witness :
    "auto".data ∈ ["haus".data, "auto".data, "buch".data] ∧
    ∃ tm, get_translations (Except.ok exLexFail)
        ["haus".data, "auto".data, "buch".data] = Except.ok tm ∧
      dictLookup "auto".data tm = some (firstCandidate (exLexFail "auto".data)) :=
  ⟨by decide,
   claim_C5_amended exLexFail ["haus".data, "auto".data, "buch".data]
     "auto".data (by decide)⟩

/-- C6, counterexample: a failing fetch for the primary language
(`requests.get` raising) propagates the exception, and so does a blank line in
an otherwise fine response body (`line.split()[0]` raises IndexError) — the
function does raise to the caller. -/
theorem claim_C6_counterexample :
    fetch_top_words (Except.error PyExn.exn) (Except.ok "the 1".data) (some 100) =
      Except.error PyExn.exn ∧
    fetch_top_words (Except.ok "haus 12\n\nauto 5".data) (Except.ok "the 1".data)
      (some 100) = Except.error PyExn.exn :=
  ⟨rfl, by decide⟩

/-- C6, amended: when both responses arrive and every consumed line carries at
least one token, the fallback list is returned exactly when the primary list
parses empty, the empty list is returned when both parse empty, and no
exception escapes; a network failure or a token-less line, by contrast,
raises. -/
theorem claim_C6_amended (ptext ftext : Word) (n : Option Nat)
    (pws fws : List Word)
    (hp : get_words (Except.ok ptext) n = Except.ok pws)
    (hf : get_words (Except.ok ftext) n = Except.ok fws) :
    fetch_top_words (Except.ok ptext) (Except.ok ftext) n =
      Except.ok (if pws.isEmpty then fws else pws) := by
  unfold fetch_top_words
  rw [hp, hf]
  by_cases h : pws.isEmpty <;> simp [h]

/-- C6, witness: an empty primary body falls back to the fallback list. -/
theorem claim_C6_amended_witness :
    get_words (Except.ok "".data) (some 100) = Except.ok [] ∧
    get_words (Except.ok "the 1\nof 2".data) (some 100) =
      Except.ok ["the".data, "of".data] ∧
    fetch_top_words (Except.ok "".data) (Except.ok "the 1\nof 2".data) (some 100) =
      Except.ok (if ([] : List Word).isEmpty then ["the".data, "of".data]
        else ([] : List Word)) :=
  ⟨by decide, by decide,
   claim_C6_amended "".data "the 1\nof 2".data (some 100) []
     ["the".data, "of".data] (by decide) (by decide)⟩

/-- C7, counterexample: the sentinel the code records for a failed meaning
lookup is "[No translation]", not "no translation available". -/
theorem claim_C7_counterexample :
    get_meanings (fun _ => none) ["haus".data] =
      [("haus".data, noTranslationSentinel)] ∧
    noTranslationSentinel ≠ "no translation available".data :=
  ⟨by decide, by decide⟩

/-- C7, amended: every word of the batch gets an entry — the service's
translation when the call succeeds and the sentinel "[No translation]" when it
fails — and the loop continues past failures without raising. -/
theorem claim_C7_amended (translate : Word → Option Word) (words : List Word)
    (w : Word) (hw : w ∈ words) :
    dictLookup w (get_meanings translate words) =
      some ((translate w).getD noTranslationSentinel) := by
  rw [get_meanings_eq, buildDict_lookup, if_pos hw]

/-- C7, witness: in a two-word batch whose second lookup fails, the failed
word receives the sentinel while the batch completes. -/
theorem claim_C7_amended_witness :
    "auto".data ∈ ["haus".data, "auto".data] ∧
    dictLookup "auto".data (get_meanings exSvcFail ["haus".data, "auto".data]) =
      some ((exSvcFail "auto".data).getD noTranslationSentinel) :=
  ⟨by decide,
   claim_C7_amended exSvcFail ["haus".data, "auto".data] "auto".data (by decide)⟩

/-- C8: a word whose bilingual lookup failed is absent from the valid
translations, from the similarity-score mapping (it never gets a score of 0 —
its lookup is `none`), from the ranked list for every requested count, and
from the meaning map computed over the selected words; in the spec's
three-word scenario with "auto" failed, the map of present translations has
exactly the 2 entries "haus" and "buch". -/
theorem claim_C8 (translations : List (Word × Option Word)) (w : Word)
    (hn : (dictKeys translations).Nodup)
    (hw : dictLookup w translations = some none) :
    w ∉ dictKeys (valid_translations translations) ∧
    dictLookup w (get_similarity_scores translations) = none ∧
    (∀ n : Nat, w ∉ dictKeys (top_matches (get_similarity_scores translations) n)) ∧
    (∀ (svc : Word → Option Word) (n : Nat),
      w ∉ dictKeys (get_meanings svc
        (dictKeys (top_matches (get_similarity_scores translations) n)))) ∧
    (valid_translations exTm3).length = 2 ∧
    dictKeys (valid_translations exTm3) = ["haus".data, "buch".data] := by
  have hs : dictLookup w (get_similarity_scores translations) = none := by
    rw [get_similarity_scores_lookup translations hn w, hw]
    rfl
  have hsk : w ∉ dictKeys (get_similarity_scores translations) :=
    (dictLookup_eq_none_iff _ _).mp hs
  refine ⟨valid_translations_not_mem translations w hn hw, hs, ?_, ?_,
    by decide, by decide⟩
  · intro n hc
    exact hsk (mem_keys_top_matches _ n w hc)
  · intro svc n hc
    have hmem := (buildDict_mem_keys _ _ w).mp (by rwa [get_meanings_eq] at hc)
    exact hsk (mem_keys_top_matches _ n w hmem)

/-- C8, witness at the spec's scenario: the failed word "auto". -/
theorem claim_C8_witness :
    (dictKeys exTm3).Nodup ∧
    dictLookup "auto".data exTm3 = some none ∧
    "auto".data ∉ dictKeys (valid_translations exTm3) ∧
    dictLookup "auto".data (get_similarity_scores exTm3) = none ∧
    "auto".data ∉ dictKeys (top_matches (get_similarity_scores exTm3) 1) ∧
    (valid_translations exTm3).length = 2 :=
  ⟨by decide, by decide,
   (claim_C8 exTm3 "auto".data (by decide) (by decide)).1,
   (claim_C8 exTm3 "auto".data (by decide) (by decide)).2.1,
   (claim_C8 exTm3 "auto".data (by decide) (by decide)).2.2.1 1,
   (claim_C8 exTm3 "auto".data (by decide) (by decide)).2.2.2.2.1⟩

/-- C9, counterexample: the similarity of "buch" and "book" is 1/4 = 0.25, not
approximately 0.29 — it misses 29/100 by 1/25 = 0.04, more than any rounding
to two decimals allows. -/
theorem claim_C9_counterexample :
    scoreOf "buch".data "book".data = 1/4 ∧
    (29 : ℚ)/100 - scoreOf "buch".data "book".data = 1/25 ∧
    ¬ ((29 : ℚ)/100 - scoreOf "buch".data "book".data ≤ 1/100) := by
  refine ⟨?_, ?_, ?_⟩ <;> with_unfolding_all decide

/-- C9, amended: on the spec's scenario the computed similarities are
2/3 ≈ 0.67 for "haus"/"house", 2/7 ≈ 0.29 for "auto"/"car", and exactly
1/4 = 0.25 for "buch"/"book"; requesting the top 1 yields [("haus", 2/3)]. -/
theorem claim_C9_amended :
    dictLookup "haus".data (get_similarity_scores exTmOk) = some (2/3) ∧
    dictLookup "auto".data (get_similarity_scores exTmOk) = some (2/7) ∧
    dictLookup "buch".data (get_similarity_scores exTmOk) = some (1/4) ∧
    top_matches (get_similarity_scores exTmOk) 1 = [("haus".data, 2/3)] ∧
    ((67 : ℚ)/100 - 2/3 ≤ 1/200 ∧ (2 : ℚ)/3 - 67/100 ≤ 1/200) ∧
    ((2 : ℚ)/7 - 29/100 ≤ 1/200 ∧ (29 : ℚ)/100 - 2/7 ≤ 1/200) := by
  refine ⟨?_, ?_, ?_, ?_, ⟨?_, ?_⟩, ⟨?_, ?_⟩⟩ <;> with_unfolding_all decide

/-- C10: the translation dict, the similarity-score dict and the ranked list
are keyed by word — each word appears at most once in each, even when the
input word list repeats a word — and every input word's entry holds its (only,
hence last) lookup result. -/
theorem claim_C10 (lex : Word → Option (List Word)) (top_words : List Word)
    (n : Nat) :
    ∃ tm, get_translations (Except.ok lex) top_words = Except.ok tm ∧
      (dictKeys tm).Nodup ∧
      (dictKeys (get_similarity_scores tm)).Nodup ∧
      (dictKeys (top_matches (get_similarity_scores tm) n)).Nodup ∧
      ∀ w ∈ top_words, dictLookup w tm = some (firstCandidate (lex w)) := by
  refine ⟨buildDict (fun x => firstCandidate (lex x)) top_words,
    get_translations_ok lex top_words, buildDict_keys_nodup _ _,
    get_similarity_scores_keys_nodup _,
    keys_top_matches_nodup _ n (get_similarity_scores_keys_nodup _), ?_⟩
  intro w hw
  rw [buildDict_lookup, if_pos hw]

/-- C10, witness at a word list with a duplicate. -/
theorem claim_C10_witness :
    ∃ tm, get_translations (Except.ok exLex)
        ["haus".data, "haus".data, "auto".data] = Except.ok tm ∧
      (dictKeys tm).Nodup ∧
      (dictKeys (get_similarity_scores tm)).Nodup ∧
      (dictKeys (top_matches (get_similarity_scores tm) 5)).Nodup ∧
      ∀ w ∈ ["haus".data, "haus".data, "auto".data],
        dictLookup w tm = some (firstCandidate (exLex w)) :=
  claim_C10 exLex ["haus".data, "haus".data, "auto".data] 5

end LanguageLearner
